import Mathlib

/-!
Verification of the π-fraction formatter (`pi_format.py`).

Modelling conventions: Python floats are modelled as real numbers (`ℝ`),
`np.pi` as `Real.pi`, and Python integers as `ℤ`.  The decimal fallback
`f"{value: .3f}"` is modelled by rounding `value * 1000` to the nearest
integer (Python rounds ties to even; no statement here depends on a tie)
and rendering sign, integer part and three zero-padded fractional digits.
Python's floor division `//` is `Int.fdiv`; `math.gcd` is `Int.gcd`.
-/

namespace PiFormat

/-- The fixed list of candidate denominators, in source order. -/
def denominators : List ℤ := [1, 2, 4, 8]

/-- The candidate numerators `range(-16, 17)`, i.e. `-16, …, 16` ascending. -/
def numerators : List ℤ := (List.range 33).map (fun k => (k : ℤ) - 16)

/-- The candidate pairs `(n, d)` in loop order: `d` is the outer loop
(denominators ascending), `n` the inner loop (numerators ascending). -/
def candidates : List (ℤ × ℤ) := denominators.flatMap (fun d => numerators.map (fun n => (n, d)))

/-- The rendering tail of `_format_pi_fraction`: sign handling and the four
formatting branches, applied to the already-simplified pair `(ns, ds)`. -/
def renderFrac (ns ds : ℤ) : String :=
  let sign : String := if ns < 0 then "-" else ""
  let nAbs : ℕ := ns.natAbs
  if ds = 1 then
    if nAbs = 1 then sign ++ "π" else sign ++ toString nAbs ++ "π"
  else
    if nAbs = 1 then sign ++ "π/" ++ toString ds
    else sign ++ toString nAbs ++ "π/" ++ toString ds

/-- Embedding of `_format_pi_fraction(n, d)`: render `n·π/d` as a reduced
symbolic fraction string.  `math.gcd(abs(n), d)` is `Int.gcd n d` and the
floor divisions `//` are `Int.fdiv`. -/
def format_pi_fraction (n d : ℤ) : String :=
  if n = 0 then "0"
  else
    let g : ℤ := Int.gcd n d
    renderFrac (Int.fdiv n g) (Int.fdiv d g)

/-- Zero-pad a natural number below 1000 to three digits. -/
def pad3 (k : ℕ) : String :=
  if k < 10 then "00" ++ toString k
  else if k < 100 then "0" ++ toString k
  else toString k

/-- Embedding of the decimal fallback `f"{value: .3f}"`: a space (or minus)
in the sign position, then the value rounded to three decimal places. -/
noncomputable def fmtFixed3 (v : ℝ) : String :=
  let m : ℤ := round (v * 1000)
  let sign : String := if v < 0 then "-" else " "
  let a : ℕ := m.natAbs
  sign ++ toString (a / 1000) ++ "." ++ pad3 (a % 1000)

/-- The candidate search loop of `format_value`: walk the candidate list in
order and return the first `(n, d)` with `|v - n·π/d| < ε`. -/
noncomputable def searchLoop (v ε : ℝ) : List (ℤ × ℤ) → Option (ℤ × ℤ)
  | [] => none
  | p :: rest =>
      if |v - (p.1 : ℝ) * Real.pi / (p.2 : ℝ)| < ε then some p else searchLoop v ε rest

/-- Embedding of `format_value(value, epsilon)`: zero check, then the
candidate search, then the decimal fallback.  The source default for `ε`
is `2e-2`. -/
noncomputable def format_value (value ε : ℝ) : String :=
  if |value| < ε then "0"
  else
    match searchLoop value ε candidates with
    | some p => format_pi_fraction p.1 p.2
    | none => fmtFixed3 value

/-- Embedding of `format_matrix_2x2(matrix, epsilon)`. -/
noncomputable def format_matrix_2x2 (m : Matrix (Fin 2) (Fin 2) ℝ) (ε : ℝ) : String :=
  let v00 := format_value (m 0 0) ε
  let v01 := format_value (m 0 1) ε
  let v10 := format_value (m 1 0) ε
  let v11 := format_value (m 1 1) ε
  "[" ++ v00 ++ "  " ++ v01 ++ "]\n    [" ++ v10 ++ "  " ++ v11 ++ "]"

/-- Decidable companion of the candidate search for inputs that are exact
π-fractions `n·π/d`: the first candidate `(n₀, d₀)` with `n₀/d₀ = n/d` as
exact rationals, i.e. `n₀·d = n·d₀`. -/
def findExact (n d : ℤ) : Option (ℤ × ℤ) :=
  candidates.find? (fun p => decide (p.1 * d = n * p.2))

/-! ### Basic facts about the candidate grid -/

lemma mem_denominators_iff (d : ℤ) : d ∈ denominators ↔ d = 1 ∨ d = 2 ∨ d = 4 ∨ d = 8 := by
  simp [denominators]

lemma denominators_pos_le (d : ℤ) (hd : d ∈ denominators) : 0 < d ∧ d ≤ 8 := by
  rw [mem_denominators_iff] at hd
  rcases hd with rfl | rfl | rfl | rfl <;> norm_num

lemma denominators_dvd (d : ℤ) (hd : d ∈ denominators) : d ∣ 8 := by
  rw [mem_denominators_iff] at hd
  rcases hd with rfl | rfl | rfl | rfl <;> norm_num

set_option maxRecDepth 4000 in
lemma candidates_snd : ∀ p ∈ candidates, p.2 ∈ denominators := by decide

lemma mem_numerators (n : ℤ) (h1 : -16 ≤ n) (h2 : n ≤ 16) : n ∈ numerators := by
  have hb : (n + 16).toNat ∈ List.range 33 := List.mem_range.mpr (by omega)
  have hm := @List.mem_map_of_mem ℕ ℤ (List.range 33) ((n + 16).toNat)
    (fun k : ℕ => (k : ℤ) - 16) hb
  have hm' : (((n + 16).toNat : ℤ) - 16) ∈ numerators := hm
  have he : ((n + 16).toNat : ℤ) - 16 = n := by omega
  rwa [he] at hm'

/-! ### The matching condition on exact π-fractions

For candidate denominators `d, e` the tolerance `2e-2` is far below the gap
`π/64` between distinct grid fractions, so `|n·π/d - m·π/e| < 2e-2` holds
exactly when `n/d` and `m/e` are the same rational. -/

lemma abs_pi_frac_sub_lt_iff (n d m e : ℤ) (hd : d ∈ denominators) (he : e ∈ denominators) :
    |(n : ℝ) * Real.pi / d - (m : ℝ) * Real.pi / e| < 2e-2 ↔ n * e = m * d := by
  obtain ⟨hd0, hd8⟩ := denominators_pos_le d hd
  obtain ⟨he0, he8⟩ := denominators_pos_le e he
  have hd0' : (0 : ℝ) < (d : ℝ) := by exact_mod_cast hd0
  have he0' : (0 : ℝ) < (e : ℝ) := by exact_mod_cast he0
  have hd8' : (d : ℝ) ≤ 8 := by exact_mod_cast hd8
  have he8' : (e : ℝ) ≤ 8 := by exact_mod_cast he8
  have key : (n : ℝ) * Real.pi / d - (m : ℝ) * Real.pi / e
      = Real.pi * ((n * e - m * d : ℤ) : ℝ) / ((d : ℝ) * e) := by
    push_cast
    field_simp
    ring
  rw [key, abs_div, abs_mul, abs_of_pos Real.pi_pos, abs_of_pos (mul_pos hd0' he0')]
  constructor
  · intro h
    by_contra hne
    have hk : n * e - m * d ≠ 0 := by omega
    have hk1 : (1 : ℝ) ≤ |((n * e - m * d : ℤ) : ℝ)| := by
      rw [show ((n * e - m * d : ℤ) : ℝ) = (((n * e - m * d : ℤ) : ℤ) : ℝ) from rfl]
      rw [← Int.cast_abs]
      exact_mod_cast Int.one_le_abs hk
    have hde : (d : ℝ) * e ≤ 64 := by nlinarith
    have h' : Real.pi * |((n * e - m * d : ℤ) : ℝ)| < 2e-2 * ((d : ℝ) * e) :=
      (div_lt_iff₀ (mul_pos hd0' he0')).mp h
    nlinarith [Real.pi_gt_three]
  · intro h
    have : ((n * e - m * d : ℤ) : ℝ) = 0 := by
      rw [show n * e - m * d = 0 by omega]
      norm_num
    rw [this]
    simp
    positivity

lemma zero_check_iff (n d : ℤ) (hd : d ∈ denominators) :
    |(n : ℝ) * Real.pi / d| < 2e-2 ↔ n = 0 := by
  have h := abs_pi_frac_sub_lt_iff n d 0 1 hd (by decide)
  simpa using h

/-! ### Behaviour of the search loop -/

lemma searchLoop_eq_none (v ε : ℝ) (L : List (ℤ × ℤ))
    (h : ∀ p ∈ L, ¬(|v - (p.1 : ℝ) * Real.pi / (p.2 : ℝ)| < ε)) :
    searchLoop v ε L = none := by
  induction L with
  | nil => rfl
  | cons p rest ih =>
      rw [searchLoop, if_neg (h p (by simp))]
      exact ih fun q hq => h q (by simp [hq])

lemma searchLoop_some_spec (v ε : ℝ) (L : List (ℤ × ℤ)) (p : ℤ × ℤ)
    (h : searchLoop v ε L = some p) :
    p ∈ L ∧ |v - (p.1 : ℝ) * Real.pi / (p.2 : ℝ)| < ε := by
  induction L with
  | nil => simp [searchLoop] at h
  | cons q rest ih =>
      rw [searchLoop] at h
      by_cases hc : |v - (q.1 : ℝ) * Real.pi / (q.2 : ℝ)| < ε
      · rw [if_pos hc] at h
        obtain rfl : q = p := by injection h
        exact ⟨by simp, hc⟩
      · rw [if_neg hc] at h
        obtain ⟨hm, hcond⟩ := ih h
        exact ⟨by simp [hm], hcond⟩

lemma searchLoop_eq_findExact (n d : ℤ) (hd : d ∈ denominators) (L : List (ℤ × ℤ))
    (hL : ∀ p ∈ L, p.2 ∈ denominators) :
    searchLoop ((n : ℝ) * Real.pi / d) 2e-2 L
      = L.find? (fun p => decide (p.1 * d = n * p.2)) := by
  induction L with
  | nil => rfl
  | cons p rest ih =>
      have hp : p.2 ∈ denominators := hL p (by simp)
      have hrest : ∀ q ∈ rest, q.2 ∈ denominators := fun q hq => hL q (by simp [hq])
      have hcond : |(n : ℝ) * Real.pi / d - (p.1 : ℝ) * Real.pi / (p.2 : ℝ)| < 2e-2
          ↔ p.1 * d = n * p.2 := by
        rw [abs_pi_frac_sub_lt_iff n d p.1 p.2 hd hp]
        constructor <;> (intro h; omega)
      by_cases hc : p.1 * d = n * p.2
      · rw [searchLoop, if_pos (hcond.mpr hc), List.find?_cons_of_pos _ (by simpa using hc)]
      · rw [searchLoop, if_neg (fun h => hc (hcond.mp h)),
          List.find?_cons_of_neg _ (by simpa using hc), ih hrest]

/-! ### No-match bands

If `v` sits strictly between two consecutive multiples of `π/8`, at distance
at least `2e-2` from each, then no candidate `n·π/d` matches `v`: every
candidate target is itself a multiple of `π/8`. -/

lemma no_match_of_band (v : ℝ) (K : ℤ)
    (h1 : (K : ℝ) * Real.pi / 8 + 2e-2 ≤ v)
    (h2 : v + 2e-2 ≤ ((K : ℝ) + 1) * Real.pi / 8)
    (n d : ℤ) (hd : d ∈ denominators) :
    ¬(|v - (n : ℝ) * Real.pi / d| < 2e-2) := by
  obtain ⟨hd0, _⟩ := denominators_pos_le d hd
  obtain ⟨e, he⟩ := denominators_dvd d hd
  have he0 : 0 < e := by nlinarith
  have hde : (d : ℝ) * e = 8 := by exact_mod_cast he.symm
  have hd0' : (0 : ℝ) < (d : ℝ) := by exact_mod_cast hd0
  have he0' : (0 : ℝ) < (e : ℝ) := by exact_mod_cast he0
  have target_eq : (n : ℝ) * Real.pi / d = ((n * e : ℤ) : ℝ) * Real.pi / 8 := by
    push_cast
    rw [div_eq_div_iff (ne_of_gt hd0') (by norm_num : (8:ℝ) ≠ 0)]
    linear_combination (-((n : ℝ) * Real.pi)) * hde
  rw [target_eq]
  rcases le_or_lt (n * e) K with hk | hk
  · have hk' : ((n * e : ℤ) : ℝ) ≤ (K : ℝ) := by exact_mod_cast hk
    have hle : ((n * e : ℤ) : ℝ) * Real.pi / 8 ≤ (K : ℝ) * Real.pi / 8 := by
      have := Real.pi_pos
      nlinarith
    intro hcon
    have := le_abs_self (v - ((n * e : ℤ) : ℝ) * Real.pi / 8)
    linarith
  · have hk' : (K : ℝ) + 1 ≤ ((n * e : ℤ) : ℝ) := by exact_mod_cast hk
    have hle : ((K : ℝ) + 1) * Real.pi / 8 ≤ ((n * e : ℤ) : ℝ) * Real.pi / 8 := by
      have := Real.pi_pos
      nlinarith
    intro hcon
    have := neg_abs_le (v - ((n * e : ℤ) : ℝ) * Real.pi / 8)
    linarith

set_option maxRecDepth 20000 in
/-- Deciding over the whole grid: for every grid pair `(n, d)`, the first
exact match found by the search renders to the same string as
`format_pi_fraction n d` itself. -/
lemma findExact_renders : ∀ d ∈ denominators, ∀ n ∈ numerators,
    (findExact n d).map (fun p => format_pi_fraction p.1 p.2)
      = some (format_pi_fraction n d) := by decide

/-! ### Concrete no-match bands used by the claims -/

lemma band_v084 :
    ((2 : ℤ) : ℝ) * Real.pi / 8 + 2e-2 ≤ (0.84 : ℝ)
      ∧ (0.84 : ℝ) + 2e-2 ≤ (((2 : ℤ) : ℝ) + 1) * Real.pi / 8 := by
  constructor <;> nlinarith [Real.pi_gt_d2, Real.pi_lt_d2]

lemma band_v1 :
    ((2 : ℤ) : ℝ) * Real.pi / 8 + 2e-2 ≤ (1 : ℝ)
      ∧ (1 : ℝ) + 2e-2 ≤ (((2 : ℤ) : ℝ) + 1) * Real.pi / 8 := by
  constructor <;> nlinarith [Real.pi_gt_d2, Real.pi_lt_d2]

lemma band_vneg1 :
    ((-3 : ℤ) : ℝ) * Real.pi / 8 + 2e-2 ≤ (-1 : ℝ)
      ∧ (-1 : ℝ) + 2e-2 ≤ (((-3 : ℤ) : ℝ) + 1) * Real.pi / 8 := by
  constructor <;> nlinarith [Real.pi_gt_d2, Real.pi_lt_d2]

lemma searchLoop_v084 : searchLoop (0.84 : ℝ) 2e-2 candidates = none := by
  refine searchLoop_eq_none _ _ _ fun p hp => ?_
  exact no_match_of_band _ 2 band_v084.1 band_v084.2 p.1 p.2 (candidates_snd p hp)

lemma searchLoop_v1 : searchLoop (1 : ℝ) 2e-2 candidates = none := by
  refine searchLoop_eq_none _ _ _ fun p hp => ?_
  exact no_match_of_band _ 2 band_v1.1 band_v1.2 p.1 p.2 (candidates_snd p hp)

lemma searchLoop_vneg1 : searchLoop (-1 : ℝ) 2e-2 candidates = none := by
  refine searchLoop_eq_none _ _ _ fun p hp => ?_
  exact no_match_of_band _ (-3) band_vneg1.1 band_vneg1.2 p.1 p.2 (candidates_snd p hp)

/-! ### Evaluations of the decimal fallback -/

lemma fmtFixed3_v084 : fmtFixed3 (0.84 : ℝ) = " 0.840" := by
  rw [fmtFixed3]
  rw [show (0.84 : ℝ) * 1000 = ((840 : ℤ) : ℝ) by norm_num, round_intCast]
  rw [if_neg (by norm_num : ¬((0.84 : ℝ) < 0))]
  rfl

lemma fmtFixed3_v1 : fmtFixed3 (1 : ℝ) = " 1.000" := by
  rw [fmtFixed3]
  rw [show (1 : ℝ) * 1000 = ((1000 : ℤ) : ℝ) by norm_num, round_intCast]
  rw [if_neg (by norm_num : ¬((1 : ℝ) < 0))]
  rfl

lemma fmtFixed3_vneg1 : fmtFixed3 (-1 : ℝ) = "-1.000" := by
  rw [fmtFixed3]
  rw [show (-1 : ℝ) * 1000 = ((-1000 : ℤ) : ℝ) by norm_num, round_intCast]
  rw [if_pos (by norm_num : (-1 : ℝ) < 0)]
  rfl

/-! ### Evaluations of `format_value` at the concrete entries -/

lemma format_value_zero : format_value (0 : ℝ) 2e-2 = "0" := by
  rw [format_value, if_pos (by norm_num : |(0 : ℝ)| < 2e-2)]

lemma format_value_v084 : format_value (0.84 : ℝ) 2e-2 = " 0.840" := by
  rw [format_value, if_neg (by rw [abs_of_pos] <;> norm_num), searchLoop_v084]
  exact fmtFixed3_v084

lemma format_value_v1 : format_value (1 : ℝ) 2e-2 = " 1.000" := by
  rw [format_value, if_neg (by rw [abs_of_pos] <;> norm_num), searchLoop_v1]
  exact fmtFixed3_v1

lemma format_value_vneg1 : format_value (-1 : ℝ) 2e-2 = "-1.000" := by
  rw [format_value, if_neg (by rw [abs_of_neg] <;> norm_num), searchLoop_vneg1]
  exact fmtFixed3_vneg1

/-! ### Reduction facts for `format_pi_fraction` -/

lemma format_pi_fraction_zero (d : ℤ) : format_pi_fraction 0 d = "0" := by
  rw [format_pi_fraction, if_pos rfl]

lemma format_pi_fraction_of_ne (n d : ℤ) (hn : n ≠ 0) :
    format_pi_fraction n d
      = renderFrac (Int.fdiv n (Int.gcd n d)) (Int.fdiv d (Int.gcd n d)) := by
  rw [format_pi_fraction, if_neg hn]

lemma reduce_invariant (n d : ℤ) :
    format_pi_fraction n d
      = format_pi_fraction (Int.fdiv n (Int.gcd n d)) (Int.fdiv d (Int.gcd n d)) := by
  by_cases hn : n = 0
  · subst hn
    rw [format_pi_fraction_zero, Int.zero_fdiv, format_pi_fraction_zero]
  · have hgpos : 0 < Int.gcd n d := Int.gcd_pos_iff.mpr (Or.inl hn)
    have hg0 : (0 : ℤ) < (Int.gcd n d : ℤ) := by exact_mod_cast hgpos
    have hgn : ((Int.gcd n d : ℤ)) ∣ n := Int.gcd_dvd_left
    have hfn : Int.fdiv n (Int.gcd n d) = n / (Int.gcd n d : ℤ) :=
      Int.fdiv_eq_ediv n hg0.le
    have hfd : Int.fdiv d (Int.gcd n d) = d / (Int.gcd n d : ℤ) :=
      Int.fdiv_eq_ediv d hg0.le
    have hn' : n / (Int.gcd n d : ℤ) ≠ 0 := by
      intro h0
      have := Int.ediv_mul_cancel hgn
      rw [h0, zero_mul] at this
      exact hn this.symm
    have hcop : Int.gcd (n / (Int.gcd n d : ℤ)) (d / (Int.gcd n d : ℤ)) = 1 :=
      Int.gcd_div_gcd_div_gcd hgpos
    rw [format_pi_fraction_of_ne n d hn, hfn, hfd,
      format_pi_fraction_of_ne _ _ hn', hcop, Nat.cast_one, Int.fdiv_one, Int.fdiv_one]

/-! ### Evaluation of the 90° rotation matrix -/

lemma matrix90_eval :
    format_matrix_2x2 !![(0 : ℝ), -1; 1, 0] 2e-2 = "[0  -1.000]\n    [ 1.000  0]" := by
  have h00 : (!![(0 : ℝ), -1; 1, 0]) 0 0 = 0 := by simp
  have h01 : (!![(0 : ℝ), -1; 1, 0]) 0 1 = -1 := by simp
  have h10 : (!![(0 : ℝ), -1; 1, 0]) 1 0 = 1 := by simp
  have h11 : (!![(0 : ℝ), -1; 1, 0]) 1 1 = 0 := by simp
  rw [format_matrix_2x2, h00, h01, h10, h11,
    format_value_zero, format_value_vneg1, format_value_v1]
  rfl

/-! ### Concrete search results on exact π-fractions -/

set_option maxRecDepth 40000 in
/-- Every grid pair keeps its (reduced) denominator inside `{1, 2, 4, 8}`
and its (reduced) numerator magnitude at most `16`. -/
lemma candidates_grid_prop : ∀ p ∈ candidates,
    (p.2 = 1 ∨ p.2 = 2 ∨ p.2 = 4 ∨ p.2 = 8) ∧ p.1.natAbs ≤ 16
      ∧ (Int.fdiv p.2 (Int.gcd p.1 p.2) = 1 ∨ Int.fdiv p.2 (Int.gcd p.1 p.2) = 2
          ∨ Int.fdiv p.2 (Int.gcd p.1 p.2) = 4 ∨ Int.fdiv p.2 (Int.gcd p.1 p.2) = 8)
      ∧ Int.fdiv p.2 (Int.gcd p.1 p.2) ∣ p.2
      ∧ (Int.fdiv p.1 (Int.gcd p.1 p.2)).natAbs ≤ 16 := by decide

set_option maxRecDepth 4000 in
lemma searchLoop_at_pi : searchLoop Real.pi 2e-2 candidates = some (1, 1) := by
  have h : Real.pi = ((1 : ℤ) : ℝ) * Real.pi / ((1 : ℤ) : ℝ) := by push_cast; ring
  rw [h, searchLoop_eq_findExact 1 1 (by decide) candidates candidates_snd]
  decide

set_option maxRecDepth 4000 in
lemma searchLoop_at_pi_half : searchLoop (Real.pi / 2) 2e-2 candidates = some (1, 2) := by
  have h : Real.pi / 2 = ((1 : ℤ) : ℝ) * Real.pi / ((2 : ℤ) : ℝ) := by push_cast; ring
  rw [h, searchLoop_eq_findExact 1 2 (by decide) candidates candidates_snd]
  decide

-- sanity checks on the embedding (concrete evaluations)
example : format_pi_fraction 0 1 = "0" := by decide
example : format_pi_fraction 1 1 = "π" := by decide
example : format_pi_fraction (-1) 1 = "-π" := by decide
example : format_pi_fraction 2 1 = "2π" := by decide
example : format_pi_fraction 1 2 = "π/2" := by decide
example : format_pi_fraction (-1) 2 = "-π/2" := by decide
example : format_pi_fraction 3 4 = "3π/4" := by decide
example : format_pi_fraction (-3) 4 = "-3π/4" := by decide
example : format_pi_fraction 2 4 = "π/2" := by decide
example : format_pi_fraction 16 8 = "2π" := by decide
example : findExact 1 2 = some (1, 2) := by decide
example : findExact 12 8 = some (3, 2) := by decide
example : pad3 840 = "840" := by decide

/-! ## The claims -/

/-- C1: for every denominator `d` in `{1, 2, 4, 8}` and every integer
numerator `n` in `[-16, 16]`, `format_value` applied to the exact value
`n·π/d` with the default epsilon `2e-2` returns the same string as
`format_pi_fraction n d`. -/
theorem formatValue_exact_eq_formatPiFraction (d : ℤ) (hd : d ∈ denominators)
    (n : ℤ) (h1 : -16 ≤ n) (h2 : n ≤ 16) :
    format_value ((n : ℝ) * Real.pi / (d : ℝ)) 2e-2 = format_pi_fraction n d := by
  by_cases hn : n = 0
  · subst hn
    rw [show ((0 : ℤ) : ℝ) * Real.pi / (d : ℝ) = 0 by push_cast; ring,
      format_value_zero, format_pi_fraction_zero]
  · have hz : ¬(|(n : ℝ) * Real.pi / d| < 2e-2) := by
      rw [zero_check_iff n d hd]
      exact hn
    rw [format_value, if_neg hz, searchLoop_eq_findExact n d hd candidates candidates_snd]
    have hf := findExact_renders d hd n (mem_numerators n h1 h2)
    rw [findExact] at hf
    cases hx : candidates.find? (fun p => decide (p.1 * d = n * p.2)) with
    | none => rw [hx] at hf; simp at hf
    | some p =>
        rw [hx] at hf
        exact Option.some.inj (by simpa using hf)

/-- Witness for C1 at `d = 2`, `n = 1`. -/
theorem formatValue_exact_eq_formatPiFraction_witness :
    (2 : ℤ) ∈ denominators ∧ (-16 : ℤ) ≤ 1 ∧ (1 : ℤ) ≤ 16
      ∧ format_value (((1 : ℤ) : ℝ) * Real.pi / ((2 : ℤ) : ℝ)) 2e-2
        = format_pi_fraction 1 2 :=
  ⟨by decide, by decide, by decide,
    formatValue_exact_eq_formatPiFraction 2 (by decide) 1 (by decide) (by decide)⟩

/-- C2, counterexample: `format_matrix_2x2` on the 90° rotation matrix does
not begin with `"[0  -π/2"`, and the entry `-1` is not resolved to the
π-fraction `"-π/2"` — it is not within `2e-2` of any candidate `n·π/d`, so
it falls to the decimal branch and formats as `"-1.000"`. -/
theorem formatMatrix_90deg_not_pi_half :
    ¬("[0  -π/2".data <+: (format_matrix_2x2 !![(0 : ℝ), -1; 1, 0] 2e-2).data)
      ∧ format_value (-1 : ℝ) 2e-2 ≠ "-π/2" := by
  constructor
  · rw [matrix90_eval]
    decide
  · rw [format_value_vneg1]
    decide

/-- C2, amended: `format_matrix_2x2` applied to the 90° rotation matrix
`[[0, -1], [1, 0]]` (default epsilon `2e-2`) formats each of the four
entries independently through `format_value`; the zero entries resolve to
`"0"` via the zero check while `±1` match no π-fraction candidate and fall
to the decimal branch, so the result begins `"[0  -1.000"` and equals
`"[0  -1.000]\n    [ 1.000  0]"`. -/
theorem formatMatrix_90deg_eval :
    format_matrix_2x2 !![(0 : ℝ), -1; 1, 0] 2e-2 = "[0  -1.000]\n    [ 1.000  0]"
      ∧ "[0  -1.000".data <+: (format_matrix_2x2 !![(0 : ℝ), -1; 1, 0] 2e-2).data := by
  refine ⟨matrix90_eval, ?_⟩
  rw [matrix90_eval]
  decide

/-- C3: for every real `x` and epsilon with `|x| < ε`, `format_value x ε`
returns the literal string `"0"`; the zero check fires before any
π-fraction candidate is tried. -/
theorem formatValue_zero_band (x ε : ℝ) (_hε : 0 < ε) (hx : |x| < ε) :
    format_value x ε = "0" := by
  rw [format_value, if_pos hx]

/-- Witness for C3 at `x = ε/2` with the default epsilon `2e-2`. -/
theorem formatValue_zero_band_witness :
    (0 : ℝ) < 2e-2 ∧ |(1e-2 : ℝ)| < 2e-2 ∧ format_value (1e-2 : ℝ) 2e-2 = "0" :=
  ⟨by norm_num, by rw [abs_of_pos] <;> norm_num,
    formatValue_zero_band 1e-2 2e-2 (by norm_num) (by rw [abs_of_pos] <;> norm_num)⟩

/-- C4: when no candidate `n·π/d` is within epsilon of the value,
`format_value` falls through to the fixed-point decimal with three digits
after the decimal point and a space in the sign position; concretely
`format_value 0.84` with the default epsilon `2e-2` returns `" 0.840"`. -/
theorem formatValue_decimal_fallback :
    format_value (0.84 : ℝ) 2e-2 = " 0.840"
      ∧ ∀ (v ε : ℝ), ¬(|v| < ε) → searchLoop v ε candidates = none →
          format_value v ε = fmtFixed3 v := by
  refine ⟨format_value_v084, fun v ε h1 h2 => ?_⟩
  rw [format_value, if_neg h1, h2]

/-- C5: `format_pi_fraction` is invariant under pre-reduction by
`g = gcd(|n|, d)`, so every returned fraction is maximally reduced; in
particular `format_pi_fraction 2 4 = "π/2"`. -/
theorem formatPiFraction_reduce_invariant :
    (∀ (n d : ℤ), 0 < d →
        format_pi_fraction n d
          = format_pi_fraction (Int.fdiv n (Int.gcd n d)) (Int.fdiv d (Int.gcd n d)))
      ∧ format_pi_fraction 2 4 = "π/2" :=
  ⟨fun n d _ => reduce_invariant n d, by decide⟩

/-- C6: the concrete value table of `format_pi_fraction`, including the
leading minus sign for negative numerators. -/
theorem formatPiFraction_table :
    format_pi_fraction 0 1 = "0"
      ∧ format_pi_fraction 1 1 = "π"
      ∧ format_pi_fraction (-1) 1 = "-π"
      ∧ format_pi_fraction 2 1 = "2π"
      ∧ format_pi_fraction 1 2 = "π/2"
      ∧ format_pi_fraction (-1) 2 = "-π/2"
      ∧ format_pi_fraction 3 4 = "3π/4"
      ∧ format_pi_fraction (-3) 4 = "-3π/4" := by
  decide

/-- C7: `format_matrix_2x2` applies `format_value` independently to the four
entries in row-major order and renders them with exactly two spaces between
the values of a row and four leading spaces before the second row's
bracket. -/
theorem formatMatrix_layout (m : Matrix (Fin 2) (Fin 2) ℝ) (ε : ℝ) :
    format_matrix_2x2 m ε
      = "[" ++ format_value (m 0 0) ε ++ "  " ++ format_value (m 0 1) ε
          ++ "]\n    [" ++ format_value (m 1 0) ε ++ "  " ++ format_value (m 1 1) ε
          ++ "]" := rfl

/-- C8: when the zero check does not fire (`ε ≤ |v|`), the candidate search
never returns a match with `n = 0`: the `n = 0` candidates (target `0` at
every `d`) cannot satisfy the tolerance test, so `format_value` can return
the literal `"0"` only through the zero check. -/
theorem searchLoop_no_zero_numerator (v ε : ℝ) (n d : ℤ) (hv : ε ≤ |v|)
    (hs : searchLoop v ε candidates = some (n, d)) :
    n ≠ 0 ∧ ¬(|v - ((0 : ℤ) : ℝ) * Real.pi / (d : ℝ)| < ε) := by
  have hcond := (searchLoop_some_spec v ε candidates (n, d) hs).2
  have hzero : ¬(|v - ((0 : ℤ) : ℝ) * Real.pi / (d : ℝ)| < ε) := by
    intro h
    rw [Int.cast_zero, zero_mul, zero_div, sub_zero] at h
    linarith
  refine ⟨?_, hzero⟩
  rintro rfl
  exact hzero (by simpa using hcond)

/-- Witness for C8 at `v = π`: the search returns the match `(1, 1)`, whose
numerator is nonzero. -/
theorem searchLoop_no_zero_numerator_witness :
    2e-2 ≤ |Real.pi|
      ∧ searchLoop Real.pi 2e-2 candidates = some (1, 1)
      ∧ ((1 : ℤ) ≠ 0
          ∧ ¬(|Real.pi - ((0 : ℤ) : ℝ) * Real.pi / ((1 : ℤ) : ℝ)| < 2e-2)) :=
  ⟨by rw [abs_of_pos Real.pi_pos]; nlinarith [Real.pi_gt_three],
    searchLoop_at_pi,
    searchLoop_no_zero_numerator Real.pi 2e-2 1 1
      (by rw [abs_of_pos Real.pi_pos]; nlinarith [Real.pi_gt_three])
      searchLoop_at_pi⟩

/-- C9: `format_value` is total and deterministic: every input yields a
string, and two calls on equal arguments yield equal strings. -/
theorem formatValue_total_deterministic (v ε w δ : ℝ) (hv : v = w) (hε : ε = δ) :
    (∃ s : String, format_value v ε = s) ∧ format_value v ε = format_value w δ := by
  subst hv
  subst hε
  exact ⟨⟨format_value v ε, rfl⟩, rfl⟩

/-- Witness for C9 at `v = 0`, `ε = 1`. -/
theorem formatValue_total_deterministic_witness :
    (0 : ℝ) = 0 ∧ (1 : ℝ) = 1
      ∧ ((∃ s : String, format_value 0 1 = s) ∧ format_value 0 1 = format_value 0 1) :=
  ⟨rfl, rfl, formatValue_total_deterministic 0 1 0 1 rfl rfl⟩

/-- C10: any match `(n, d)` returned by the candidate search comes from the
grid, so `d ∈ {1, 2, 4, 8}` and `|n| ≤ 16`; the reduced denominator
`d / gcd(|n|, d)` divides `d` and hence also lies in `{1, 2, 4, 8}`, and the
reduced numerator keeps `|n'| ≤ 16` — so every π-fraction string rendered by
`format_value` shows a denominator from `{2, 4, 8}` (or none when it reduces
to `1`) and a numerator of magnitude at most `16`. -/
theorem searchLoop_match_in_grid (v ε : ℝ) (n d : ℤ)
    (hs : searchLoop v ε candidates = some (n, d)) :
    (d = 1 ∨ d = 2 ∨ d = 4 ∨ d = 8) ∧ n.natAbs ≤ 16
      ∧ (Int.fdiv d (Int.gcd n d) = 1 ∨ Int.fdiv d (Int.gcd n d) = 2
          ∨ Int.fdiv d (Int.gcd n d) = 4 ∨ Int.fdiv d (Int.gcd n d) = 8)
      ∧ Int.fdiv d (Int.gcd n d) ∣ d
      ∧ (Int.fdiv n (Int.gcd n d)).natAbs ≤ 16 := by
  have hmem := (searchLoop_some_spec v ε candidates (n, d) hs).1
  exact candidates_grid_prop (n, d) hmem

/-- Witness for C10 at `v = π/2`: the search returns `(1, 2)`, which lies in
the grid and is already reduced. -/
theorem searchLoop_match_in_grid_witness :
    searchLoop (Real.pi / 2) 2e-2 candidates = some (1, 2)
      ∧ (((2 : ℤ) = 1 ∨ (2 : ℤ) = 2 ∨ (2 : ℤ) = 4 ∨ (2 : ℤ) = 8)
          ∧ (1 : ℤ).natAbs ≤ 16
          ∧ (Int.fdiv 2 (Int.gcd 1 2) = 1 ∨ Int.fdiv 2 (Int.gcd 1 2) = 2
              ∨ Int.fdiv 2 (Int.gcd 1 2) = 4 ∨ Int.fdiv 2 (Int.gcd 1 2) = 8)
          ∧ Int.fdiv 2 (Int.gcd 1 2) ∣ (2 : ℤ)
          ∧ (Int.fdiv 1 (Int.gcd 1 2)).natAbs ≤ 16) :=
  ⟨searchLoop_at_pi_half,
    searchLoop_match_in_grid (Real.pi / 2) 2e-2 1 2 searchLoop_at_pi_half⟩

end PiFormat
